import Mathlib

/-!
Shallow embedding of the giscus-bot publishing and orchestration core
(src/action.ts, src/core/generator.ts, src/core/publisher.ts) together with
theorems checking the natural-language specification against it.

Strings are modelled by Lean `String` (a wrapper around `List Char`); the
low-level operations mirror the JavaScript/Node primitives the source uses
(`String.prototype.slice`, `String.prototype.replace` with a string pattern,
`String.prototype.split`, `path.basename`, and the anchored regular
expressions of `action.ts`).
-/

namespace GiscusBot

/-- Decidable equality for `Except`, so that concrete runs can be checked
by `decide`. -/
instance {ε α : Type} [DecidableEq ε] [DecidableEq α] :
    DecidableEq (Except ε α) := fun a b =>
  match a, b with
  | .error e, .error f =>
    if h : e = f then .isTrue (h ▸ rfl)
    else .isFalse (fun hh => h (Except.error.inj hh))
  | .ok x, .ok y =>
    if h : x = y then .isTrue (h ▸ rfl)
    else .isFalse (fun hh => h (Except.ok.inj hh))
  | .error _, .ok _ => .isFalse Except.noConfusion
  | .ok _, .error _ => .isFalse Except.noConfusion

/-! ## String primitives (embedding of the JS/Node operations used) -/

/-- `path.basename` (posix), on the character list: strip trailing slashes,
then keep what follows the last `/`; an all-slash path yields `/`. -/
def basenameL (l : List Char) : List Char :=
  let noTrail := (l.reverse.dropWhile (fun c => c = '/')).reverse
  if noTrail.isEmpty then
    if l.isEmpty then [] else ['/']
  else
    (noTrail.reverse.takeWhile (fun c => c ≠ '/')).reverse

/-- Strip `suf` from the end of `l` when it is a suffix, else return `l`
unchanged.  This is `str.replace(/SUF$/, "")` for a literal suffix. -/
def stripSuffixIfL (l suf : List Char) : List Char :=
  if suf.isSuffixOf l then l.take (l.length - suf.length) else l

/-- Strip `pre` from the front of `l` when it is a prefix, else return `l`
unchanged.  This is `str.replace(/^PRE/, "")` for a literal. -/
def stripPrefixIfL (l pre : List Char) : List Char :=
  if pre.isPrefixOf l then l.drop pre.length else l

/-- `filename.replace(/\.(md|mdx|markdown|html)$/, "")` (jekyll and custom
branches of action.ts).  The regex is anchored at the end, so it strips
exactly one of the listed extensions when present (they are mutually
exclusive as suffixes). -/
def stripExtJekyllL (l : List Char) : List Char :=
  if (".markdown".data).isSuffixOf l then l.take (l.length - 9)
  else if (".mdx".data).isSuffixOf l then l.take (l.length - 4)
  else if (".md".data).isSuffixOf l then l.take (l.length - 3)
  else if (".html".data).isSuffixOf l then l.take (l.length - 5)
  else l

/-- `withoutPrefix.replace(/\.(md|mdx|html)$/, "")` (hugo branch; note the
hugo list has no `markdown`). -/
def stripExtHugoL (l : List Char) : List Char :=
  if (".mdx".data).isSuffixOf l then l.take (l.length - 4)
  else if (".md".data).isSuffixOf l then l.take (l.length - 3)
  else if (".html".data).isSuffixOf l then l.take (l.length - 5)
  else l

/-- The anchored regex `^(\d{4})-(\d{2})-(\d{2})-(.+)$` of action.ts.
Matching is deterministic: four digits, a dash, two digits, a dash, two
digits, a dash, then a non-empty remainder; the four capture groups are
returned. -/
def jekyllMatchL (l : List Char) :
    Option (List Char × List Char × List Char × List Char) :=
  if 12 ≤ l.length ∧ (l.take 4).all Char.isDigit ∧ (l.drop 4).take 1 = ['-'] ∧
      ((l.drop 5).take 2).all Char.isDigit ∧ (l.drop 7).take 1 = ['-'] ∧
      ((l.drop 8).take 2).all Char.isDigit ∧ (l.drop 10).take 1 = ['-'] then
    some (l.take 4, (l.drop 5).take 2, (l.drop 8).take 2, l.drop 11)
  else
    none

/-- Split `s` at the first occurrence of `t`: `some (a, b)` with
`s = a ++ t ++ b` and `a` shortest, or `none` when `t` does not occur. -/
def splitFirstL (t : List Char) : List Char → Option (List Char × List Char)
  | [] => if t.isEmpty then some ([], []) else none
  | c :: s =>
    if t.isPrefixOf (c :: s) then some ([], (c :: s).drop t.length)
    else
      match splitFirstL t s with
      | some (a, b) => some (c :: a, b)
      | none => none

/-- `s.replace(t, r)` with a string pattern `t`: JavaScript replaces only
the first occurrence. -/
def replaceFirstL (t r s : List Char) : List Char :=
  match splitFirstL t s with
  | some (a, b) => a ++ r ++ b
  | none => s

/-- `s.split(sep)` for a one-character separator, with JavaScript semantics:
`"".split("/") = [""]`. -/
def jsSplitCharL (sep : Char) : List Char → List (List Char)
  | [] => [[]]
  | c :: s =>
    let rest := jsSplitCharL sep s
    if c = sep then [] :: rest else (c :: rest.headD []) :: rest.tail

/-- `arr.slice(0, e)` with ECMAScript semantics: a negative end counts from
the end of the array. -/
def jsSlice0 {α : Type} (l : List α) (e : Int) : List α :=
  if 0 ≤ e then l.take e.toNat
  else l.take (l.length - min l.length e.natAbs)

/-- ASCII lower-casing, as used for the case-insensitive category match
(`name.toLowerCase()` on the ASCII range). -/
def lowerAsciiL (l : List Char) : List Char :=
  l.map (fun c => if 'A' ≤ c ∧ c ≤ 'Z' then Char.ofNat (c.toNat + 32) else c)

/-! ## String-level wrappers -/

def basename (s : String) : String := ⟨basenameL s.data⟩

def stripExtJekyll (s : String) : String := ⟨stripExtJekyllL s.data⟩

def stripExtHugo (s : String) : String := ⟨stripExtHugoL s.data⟩

/-- `site.url.replace(/\/$/, "")` — strip one trailing slash. -/
def stripTrailingSlash (s : String) : String :=
  if s.data.getLast? = some '/' then ⟨s.data.dropLast⟩ else s

def jekyllMatch (s : String) : Option (String × String × String × String) :=
  (jekyllMatchL s.data).map (fun (y, m, d, sl) => (⟨y⟩, ⟨m⟩, ⟨d⟩, ⟨sl⟩))

/-! ## PathResolver (action.ts) -/

/-- `jekyllFileToPath` of action.ts. -/
def jekyllFileToPath (filePath : String) : String :=
  let filename := stripExtJekyll (basename filePath)
  match jekyllMatch filename with
  | none => "/" ++ filename ++ "/"
  | some (y, m, d, slug) =>
    "/" ++ y ++ "/" ++ m ++ "/" ++ d ++ "/" ++ slug ++ "/"

/-- `hugoFileToPath` of action.ts. -/
def hugoFileToPath (filePath : String) : String :=
  let withoutPre := stripPrefixIfL filePath.data ("content/".data)
  let withoutExt := stripExtHugoL withoutPre
  let cleaned := stripSuffixIfL withoutExt ("/index".data)
  "/" ++ (⟨cleaned⟩ : String) ++ "/"

/-- The substitution pairs of `customFileToPath`, in the order the source
applies them: `{slug}`, `{filename}`, `{year}`, `{month}`, `{day}`. -/
def customSubstsL (filePath : List Char) : List (List Char × List Char) :=
  let filename := stripExtJekyllL (basenameL filePath)
  match jekyllMatchL filename with
  | some (y, m, d, slug) =>
    [("{slug}".data, slug), ("{filename}".data, filename),
     ("{year}".data, y), ("{month}".data, m), ("{day}".data, d)]
  | none =>
    [("{slug}".data, filename), ("{filename}".data, filename),
     ("{year}".data, []), ("{month}".data, []), ("{day}".data, [])]

def applySubsts (subs : List (List Char × List Char)) (p : List Char) :
    List Char :=
  subs.foldl (fun acc tv => replaceFirstL tv.1 tv.2 acc) p

/-- `customFileToPath` of action.ts: five chained first-occurrence
replacements on the pattern. -/
def customFileToPath (filePath pat : String) : String :=
  ⟨applySubsts (customSubstsL filePath.data) pat.data⟩

/-- The `site` section of the configuration.  The framework is kept as a
string because the source switches on it and has a default (error) case. -/
structure SiteConfig where
  url : String
  framework : String
  pathPattern : Option String
deriving DecidableEq, Repr

/-- `filePathToUrl` of action.ts.  Errors are the thrown `Error` messages. -/
def filePathToUrl (filePath : String) (site : SiteConfig) :
    Except String String :=
  let baseUrl := stripTrailingSlash site.url
  if site.framework = "jekyll" then .ok (baseUrl ++ jekyllFileToPath filePath)
  else if site.framework = "hugo" then .ok (baseUrl ++ hugoFileToPath filePath)
  else if site.framework = "custom" then
    if site.pathPattern.getD "" = "" then
      .error "site.pathPattern is required when framework is \"custom\""
    else .ok (baseUrl ++ customFileToPath filePath (site.pathPattern.getD ""))
  else .error ("Unknown site framework: " ++ site.framework)

/-! ## Data model (config/types.ts, providers/base.ts, core/generator.ts) -/

structure Persona where
  name : String
  description : String
  tone : String
deriving DecidableEq, Repr

structure PostContext where
  url : String
  title : String
  content : String
  excerpt : String
deriving DecidableEq, Repr

/-- The configuration fields the core consumes (GiscusBotConfig, flattened:
`github.repo`, `github.discussionCategory`, `personas`, `limits.maxPersonas`,
`labeling.prefix`).  `maxPersonas` is an integer, as any JS number can reach
the `Math.min`/`slice` pair in the generator. -/
structure GiscusBotConfig where
  repo : String
  discussionCategory : String
  personas : List Persona
  maxPersonas : Int
  label : String
deriving DecidableEq, Repr

structure CommentResult where
  personaName : String
  comment : String
  formattedComment : String
deriving DecidableEq, Repr

structure GenerateResult where
  postTitle : String
  postUrl : String
  discussionUrl : Option String
  comments : List CommentResult
deriving DecidableEq, Repr

structure Discussion where
  id : String
  url : String
deriving DecidableEq, Repr

/-! ## CommentComposer and PersonaSelector (core/generator.ts) -/

/-- `formatComment` of generator.ts:
`` `${labelPrefix} · Persona: ${personaName}\n\n${comment}` ``. -/
def formatComment (comment personaName label : String) : String :=
  label ++ " · Persona: " ++ personaName ++ "\n\n" ++ comment

/-- Persona selection of generator.ts step 2:
`personas.slice(0, Math.min(maxPersonas, personas.length))`. -/
def selectPersonas (personas : List Persona) (maxCount : Int) : List Persona :=
  jsSlice0 personas (min maxCount (personas.length : Int))

/-- Repo-identifier parsing of generator.ts step 4:
`const [owner, repo] = config.github.repo.split("/")` followed by the
`!owner || !repo` check (a missing and an empty destructured segment are
both falsy). -/
def parseRepo (s : String) : Except String (String × String) :=
  let parts := (jsSplitCharL '/' s.data).map (fun l => (⟨l⟩ : String))
  let owner := parts.getD 0 ""
  let repo := parts.getD 1 ""
  if owner = "" ∨ repo = "" then
    .error ("Invalid repo format \"" ++ s ++ "\". Expected \"owner/repo\".")
  else .ok (owner, repo)

/-! ## PipelineOrchestrator (generate of core/generator.ts)

The external collaborators are modelled as an environment of oracles: the
AI provider maps a persona to a generated text or a failure, and the
publisher operations return outcomes chosen by the environment (the k-th
`addComment` call may fail).  `generate` is run on a `PostContext` (the
push-trigger path; the URL path goes through the out-of-scope scraper
first).  Besides the generator's return value we record the publish calls
it issued, in order, and the comment bodies that were successfully posted
on the remote discussion. -/

/-- One publish call issued by the pipeline, with its arguments. -/
inductive PubCall where
  | findOrCreate (owner repo category title body : String)
  | addComment (discussionId body : String)
deriving DecidableEq, Repr

structure GenEnv where
  generateComment : Persona → Except String String
  findOrCreate : Except String Discussion
  addCommentOutcome : Nat → Except String Unit

structure RunOutcome where
  result : Except String GenerateResult
  calls : List PubCall
  posted : List String
deriving DecidableEq, Repr

/-- Step 3 of generate: one provider call per selected persona,
sequentially; the first failure aborts the run. -/
def generateAll (env : GenEnv) (cfg : GiscusBotConfig) :
    List Persona → Except String (List CommentResult)
  | [] => .ok []
  | p :: ps =>
    match env.generateComment p with
    | .error e => .error e
    | .ok c =>
      match generateAll env cfg ps with
      | .error e => .error e
      | .ok rest =>
        .ok ({ personaName := p.name, comment := c,
               formattedComment := formatComment c p.name cfg.label } :: rest)

/-- Step 5's comment loop: `addComment` once per generated comment, in
order; a failure stops the loop and surfaces the error.  Returns the loop
outcome, the calls issued, and the bodies successfully posted. -/
def postAll (env : GenEnv) (discussionId : String) (k : Nat) :
    List CommentResult → Except String Unit × List PubCall × List String
  | [] => (.ok (), [], [])
  | c :: cs =>
    let call := PubCall.addComment discussionId c.formattedComment
    match env.addCommentOutcome k with
    | .error e => (.error e, [call], [])
    | .ok _ =>
      let rest := postAll env discussionId (k + 1) cs
      (rest.1, call :: rest.2.1, c.formattedComment :: rest.2.2)

/-- `generate` of core/generator.ts (on a pre-built PostContext). -/
def generate (ctx : PostContext) (cfg : GiscusBotConfig) (env : GenEnv)
    (dryRun : Bool) : RunOutcome :=
  let selected := selectPersonas cfg.personas cfg.maxPersonas
  match generateAll env cfg selected with
  | .error e => ⟨.error e, [], []⟩
  | .ok comments =>
    if dryRun then
      ⟨.ok ⟨ctx.title, ctx.url, none, comments⟩, [], []⟩
    else
      match parseRepo cfg.repo with
      | .error e => ⟨.error e, [], []⟩
      | .ok (owner, repo) =>
        let body := "Discussion for: " ++ ctx.title
        let call0 := PubCall.findOrCreate owner repo cfg.discussionCategory
          ctx.title body
        match env.findOrCreate with
        | .error e => ⟨.error e, [call0], []⟩
        | .ok disc =>
          let loop := postAll env disc.id 0 comments
          match loop.1 with
          | .error e => ⟨.error e, call0 :: loop.2.1, loop.2.2⟩
          | .ok _ =>
            ⟨.ok ⟨ctx.title, ctx.url, some disc.url, comments⟩,
             call0 :: loop.2.1, loop.2.2⟩

/-! ## DiscussionPublisher (core/publisher.ts)

`src/core/publisher.ts` itself is not present under `src/` — only its test
suite (`tests/core/publisher.test.ts`) and its caller (`core/generator.ts`)
are.  The definitions below are therefore modelled from the spec (§4.4 and
§6) and the behaviour pinned by the test suite.  The remote system is an
environment: the node list a search returns, the repository id and category
list, and the discussion a create mutation returns.  Each operation also
reports how many remote (GraphQL) calls it issued. -/

structure DiscussionNode where
  id : String
  title : String
  url : String
deriving DecidableEq, Repr

structure Category where
  id : String
  name : String
deriving DecidableEq, Repr

structure RemoteEnv where
  searchNodes : List DiscussionNode
  repoId : String
  categories : List Category
  created : Discussion
deriving Repr

def lowerAscii (s : String) : String := ⟨lowerAsciiL s.data⟩

/-- Modelled from the spec: `findDiscussion` of the missing
src/core/publisher.ts — one search call; the first result whose title is an
exact (case-sensitive) match is returned, else null. -/
def findDiscussion (env : RemoteEnv) (title : String) :
    Option Discussion × Nat :=
  ((env.searchNodes.find? (fun n => n.title == title)).map
    (fun n => Discussion.mk n.id n.url), 1)

/-- Modelled from the spec: `getRepoInfo` of the missing
src/core/publisher.ts — one call fetching the repository id and categories;
the category name is matched case-insensitively, and a missing match fails
with the CategoryNotFound message the tests pin
(`Discussion category "NAME" not found`). -/
def getRepoInfo (env : RemoteEnv) (categoryName : String) :
    Except String (String × String) × Nat :=
  (match env.categories.find?
      (fun c => lowerAscii c.name == lowerAscii categoryName) with
   | some c => .ok (env.repoId, c.id)
   | none =>
     .error ("Discussion category \"" ++ categoryName ++ "\" not found"), 1)

/-- Modelled from the spec: `createDiscussion` of the missing
src/core/publisher.ts — one mutation, always creating a new thread. -/
def createDiscussion (env : RemoteEnv) (_repoId _categoryId _title _body :
    String) : Discussion × Nat :=
  (env.created, 1)

/-- Modelled from the spec: `findOrCreateDiscussion` of the missing
src/core/publisher.ts — `findDiscussion` first; on a hit return it (one
call total); otherwise `getRepoInfo` then `createDiscussion` (three calls
total). -/
def findOrCreateDiscussion (env : RemoteEnv)
    (_owner _repo categoryName title body : String) :
    Except String Discussion × Nat :=
  match findDiscussion env title with
  | (some d, n1) => (.ok d, n1)
  | (none, n1) =>
    match getRepoInfo env categoryName with
    | (.error e, n2) => (.error e, n1 + n2)
    | (.ok rc, n2) =>
      let dn := createDiscussion env rc.1 rc.2 title body
      (.ok dn.1, n1 + n2 + dn.2)

/-! ## Helper lemmas on strings -/

theorem strData_inj {a b : String} (h : a.data = b.data) : a = b := by
  cases a; cases b; cases h; rfl

theorem strData_append (a b : String) : (a ++ b).data = a.data ++ b.data := by
  cases a; cases b; rfl

/-! ## Test fixtures (from tests/core/generator.test.ts and
tests/core/publisher.test.ts) -/

def pA : Persona := ⟨"Curious Reader", "Asks questions", "friendly"⟩

def pB : Persona := ⟨"Devil's Advocate", "Counterpoints", "analytical"⟩

def pC : Persona := ⟨"Third Persona", "Extra", "neutral"⟩

def ctx0 : PostContext :=
  ⟨"https://blog.example.com/post", "Test Post Title",
   "Some content about testing.", "Some content about testing."⟩

def cfg0 : GiscusBotConfig :=
  ⟨"user/blog", "Blog Comments", [pA, pB, pC], 2, "🤖 **AI Comment**"⟩

def env0 : GenEnv :=
  ⟨fun p => .ok ("Comment from " ++ p.name),
   .ok ⟨"D_1", "https://github.com/user/blog/discussions/1"⟩,
   fun _ => .ok ()⟩

/-! ## Claim C9 — comment composer output -/

/-- Claim C9: for every rawText, personaName and labelPrefix the composed
comment is exactly `labelPrefix ++ " · Persona: " ++ personaName ++ "\n\n"
++ rawText`, with rawText inserted untrimmed; in particular the spec's
concrete example holds. -/
theorem formatComment_exact :
    (∀ c p l : String,
      formatComment c p l = l ++ " · Persona: " ++ p ++ "\n\n" ++ c) ∧
    formatComment "Nice point." "Curious Reader" "🤖 AI" =
      "🤖 AI · Persona: Curious Reader\n\nNice point." := by
  refine ⟨fun c p l => rfl, by decide⟩

/-! ## Claim C4 — persona selection -/

/-- Claim C4 counterexample: with three personas and `maxCount = -1` the
selection is the first two personas, not the empty list the claim requires
for every `maxCount ≤ 0` (JavaScript `slice(0, -1)` drops from the end). -/
theorem selectPersonas_negative_not_empty :
    selectPersonas [pA, pB, pC] (-1) = [pA, pB] ∧
    selectPersonas [pA, pB, pC] (-1) ≠ [] := by
  decide

/-- Claim C4 (amended): selection returns the first
`min (maxCount, len)` personas in input order (no randomisation, no
dedup) for every `maxCount ≥ 0`, and `maxCount = 0` yields the empty
list; a negative `maxCount` instead yields the first
`len - min (len, |maxCount|)` personas (JavaScript slice semantics),
never an error. -/
theorem selectPersonas_spec :
    ∀ (personas : List Persona) (m : Int),
      (0 ≤ m → selectPersonas personas m =
        personas.take (min m.toNat personas.length)) ∧
      selectPersonas personas 0 = [] ∧
      (m < 0 → selectPersonas personas m =
        personas.take (personas.length - min personas.length m.natAbs)) := by
  intro personas m
  refine ⟨fun hm => ?_, ?_, fun hm => ?_⟩
  · simp only [selectPersonas, jsSlice0]
    rw [if_pos (le_min hm (Int.natCast_nonneg _))]
    congr 1
    omega
  · simp only [selectPersonas, jsSlice0]
    rw [if_pos (le_min le_rfl (Int.natCast_nonneg _))]
    have h0 : (min (0 : Int) (personas.length : Int)).toNat = 0 := by omega
    rw [h0, List.take_zero]
  · simp only [selectPersonas, jsSlice0]
    have h1 : min m (personas.length : Int) = m :=
      min_eq_left (le_trans (le_of_lt hm) (Int.natCast_nonneg _))
    rw [h1, if_neg (by omega)]

/-- Witness for `selectPersonas_spec` at concrete inputs. -/
theorem selectPersonas_spec_witness :
    selectPersonas [pA, pB, pC] 2 = [pA, pB] ∧
    selectPersonas [pA, pB, pC] 0 = [] ∧
    selectPersonas [pA, pB, pC] (-2) = [pA] := by
  refine ⟨((selectPersonas_spec [pA, pB, pC] 2).1 (by decide)).trans
    (by decide), (selectPersonas_spec [pA, pB, pC] 0).2.1,
    ((selectPersonas_spec [pA, pB, pC] (-2)).2.2 (by decide)).trans
    (by decide)⟩

/-! ## Claim C5 — ConfigError cases -/

/-- The i-th segment of the JavaScript `split("/")` of a repo identifier
(with the empty string standing for both a missing and an empty
destructured segment, which are equally falsy in the source's check). -/
def splitSeg (s : String) (i : Nat) : String :=
  ((jsSplitCharL '/' s.data).map (fun l => (⟨l⟩ : String))).getD i ""

/-- Claim C5 counterexample: identifiers with three segments, or with an
empty third segment, are accepted by the code (only the first two
destructured segments are checked), while the claim requires every
identifier that does not split into exactly two non-empty segments to be
rejected. -/
theorem parseRepo_extra_segments_accepted :
    parseRepo "a/b/c" = .ok ("a", "b") ∧
    parseRepo "a/b/" = .ok ("a", "b") := by
  decide

/-- Claim C5 (amended): in non-dry-run mode the run fails with a
ConfigError exactly when the first or second segment of
`repoIdentifier.split("/")` is empty or missing — segments beyond the
second are ignored, so identifiers with three or more segments whose
first two segments are non-empty are accepted — and this happens before
any publish call; a custom framework mapping without a pattern and an
unrecognized framework kind are also ConfigErrors. -/
theorem configError_spec :
    (∀ s : String,
      (parseRepo s =
          .error ("Invalid repo format \"" ++ s ++
            "\". Expected \"owner/repo\".") ↔
        splitSeg s 0 = "" ∨ splitSeg s 1 = "") ∧
      (splitSeg s 0 ≠ "" → splitSeg s 1 ≠ "" →
        parseRepo s = .ok (splitSeg s 0, splitSeg s 1))) ∧
    (∀ (ctx : PostContext) (cfg : GiscusBotConfig) (env : GenEnv)
        (comments : List CommentResult) (e : String),
      generateAll env cfg (selectPersonas cfg.personas cfg.maxPersonas) =
        .ok comments →
      parseRepo cfg.repo = .error e →
      generate ctx cfg env false = ⟨.error e, [], []⟩) ∧
    (∀ (fp u : String) (p : Option String), p.getD "" = "" →
      filePathToUrl fp ⟨u, "custom", p⟩ =
        .error "site.pathPattern is required when framework is \"custom\"") ∧
    (∀ (fp u k : String) (p : Option String),
      k ≠ "jekyll" → k ≠ "hugo" → k ≠ "custom" →
      filePathToUrl fp ⟨u, k, p⟩ =
        .error ("Unknown site framework: " ++ k)) := by
  refine ⟨fun s => ⟨?_, fun h0 h1 => ?_⟩, fun ctx cfg env comments e hg hp => ?_,
    fun fp u p hp => ?_, fun fp u k p h1 h2 h3 => ?_⟩
  · simp only [parseRepo, splitSeg]
    by_cases h : ((jsSplitCharL '/' s.data).map
        (fun l => (⟨l⟩ : String))).getD 0 "" = "" ∨
        ((jsSplitCharL '/' s.data).map (fun l => (⟨l⟩ : String))).getD 1 "" = ""
    · rw [if_pos h]
      exact iff_of_true rfl h
    · rw [if_neg h]
      exact iff_of_false (fun hh => Except.noConfusion hh) h
  · simp only [parseRepo, splitSeg] at h0 h1 ⊢
    rw [if_neg (by tauto)]
  · simp only [generate, hg, hp, Bool.false_eq_true, if_false]
  · simp [filePathToUrl, hp]
  · simp [filePathToUrl, h1, h2, h3]

/-- Witness for `configError_spec` at concrete inputs. -/
theorem configError_spec_witness :
    parseRepo "user/blog" = .ok ("user", "blog") ∧
    generate ctx0 ⟨"userblog", "General", [], 1, "🤖"⟩ env0 false =
      ⟨.error "Invalid repo format \"userblog\". Expected \"owner/repo\".",
       [], []⟩ ∧
    filePathToUrl "a.md" ⟨"https://b.com", "custom", none⟩ =
      .error "site.pathPattern is required when framework is \"custom\"" ∧
    filePathToUrl "a.md" ⟨"https://b.com", "gatsby", none⟩ =
      .error "Unknown site framework: gatsby" := by
  refine ⟨((configError_spec.1 "user/blog").2 (by decide) (by decide)).trans
      (by decide),
    configError_spec.2.1 ctx0 ⟨"userblog", "General", [], 1, "🤖"⟩ env0 []
      "Invalid repo format \"userblog\". Expected \"owner/repo\"."
      (by decide) (by decide),
    configError_spec.2.2.1 "a.md" "https://b.com" none (by decide),
    (configError_spec.2.2.2 "a.md" "https://b.com" "gatsby" none
      (by decide) (by decide) (by decide)).trans (by decide)⟩

/-! ## Claim C6 — PathResolver behaviour -/

/-- The spec's description of `resolve(filePath, mapping, baseUrl)` (§4.1),
written as it is worded: strip one trailing slash from the base URL; for
jekyll, strip directory and extension and either expand a matched
`YYYY-MM-DD-slug` date prefix into `/YYYY/MM/DD/slug/` or fall back to
`/filename/`; for hugo, drop a leading `content/` segment, the file
extension and a trailing `/index` and wrap the remainder in slashes; for
custom, substitute the placeholders into the required pattern.  The
spec's "extension" and "date prefix" are those of the source's anchored
regular expressions. -/
def resolveSpec (filePath framework : String) (pat : Option String)
    (baseUrl : String) : Except String String :=
  let b := stripTrailingSlash baseUrl
  if framework = "jekyll" then
    let filename := stripExtJekyll (basename filePath)
    match jekyllMatch filename with
    | some (y, m, d, slug) =>
      .ok (b ++ "/" ++ y ++ "/" ++ m ++ "/" ++ d ++ "/" ++ slug ++ "/")
    | none => .ok (b ++ "/" ++ filename ++ "/")
  else if framework = "hugo" then
    let remainder := stripSuffixIfL
      (stripExtHugoL (stripPrefixIfL filePath.data ("content/".data)))
      ("/index".data)
    .ok (b ++ "/" ++ (⟨remainder⟩ : String) ++ "/")
  else if framework = "custom" then
    match pat with
    | none => .error "site.pathPattern is required when framework is \"custom\""
    | some q =>
      if q = "" then
        .error "site.pathPattern is required when framework is \"custom\""
      else .ok (b ++ customFileToPath filePath q)
  else .error ("Unknown site framework: " ++ framework)

/-- Claim C6: `filePathToUrl` realises exactly the spec's description of
the path resolver — after stripping one trailing slash from the base URL,
a date-prefixed jekyll filename maps to `/YYYY/MM/DD/slug/`, any other
jekyll filename falls back to `/filename/`, a hugo path maps to the
remainder with `content/`, the extension and a trailing `/index` dropped,
and a custom pattern has its placeholders substituted — including the
spec's three concrete examples. -/
theorem filePathToUrl_matches_spec :
    (∀ (fp : String) (site : SiteConfig),
      filePathToUrl fp site =
        resolveSpec fp site.framework site.pathPattern site.url) ∧
    filePathToUrl "_posts/2024-06-15-hello-world.md"
      ⟨"https://b.com", "jekyll", none⟩ =
        .ok "https://b.com/2024/06/15/hello-world/" ∧
    filePathToUrl "content/posts/hello-world.md"
      ⟨"https://b.com", "hugo", none⟩ =
        .ok "https://b.com/posts/hello-world/" ∧
    filePathToUrl "about.md" ⟨"https://b.com", "jekyll", none⟩ =
      .ok "https://b.com/about/" := by
  refine ⟨fun fp site => ?_, by decide, by decide, by decide⟩
  rcases site with ⟨u, fw, p⟩
  simp only [filePathToUrl, resolveSpec, jekyllFileToPath, hugoFileToPath]
  by_cases h1 : fw = "jekyll"
  · rw [if_pos h1, if_pos h1]
    cases jekyllMatch (stripExtJekyll (basename fp)) with
    | none =>
      exact congrArg Except.ok (strData_inj (by
        simp [strData_append, List.append_assoc]))
    | some t =>
      obtain ⟨y, m, d, slug⟩ := t
      exact congrArg Except.ok (strData_inj (by
        simp [strData_append, List.append_assoc]))
  · rw [if_neg h1, if_neg h1]
    by_cases h2 : fw = "hugo"
    · rw [if_pos h2, if_pos h2]
      exact congrArg Except.ok (strData_inj (by
        simp [strData_append, List.append_assoc]))
    · rw [if_neg h2, if_neg h2]
      by_cases h3 : fw = "custom"
      · rw [if_pos h3, if_pos h3]
        cases p with
        | none => rfl
        | some q =>
          by_cases hq : q = ""
          · subst hq; rfl
          · simp [hq]
      · rw [if_neg h3, if_neg h3]

/-! ## Claim C7 — getRepoInfo category matching -/

/-- Claim C7: `getRepoInfo` returns the repository id together with the id
of the first discussion category whose name matches the requested name
case-insensitively, and fails with the CategoryNotFound message naming the
attempted name exactly when no case-insensitive match exists among the
categories. -/
theorem getRepoInfo_spec :
    ∀ (env : RemoteEnv) (categoryName : String),
      (∀ c, env.categories.find?
          (fun c2 => lowerAscii c2.name == lowerAscii categoryName) = some c →
        getRepoInfo env categoryName = (.ok (env.repoId, c.id), 1)) ∧
      (env.categories.find?
          (fun c2 => lowerAscii c2.name == lowerAscii categoryName) = none →
        getRepoInfo env categoryName =
          (.error ("Discussion category \"" ++ categoryName ++
            "\" not found"), 1)) ∧
      (env.categories.find?
          (fun c2 => lowerAscii c2.name == lowerAscii categoryName) = none ↔
        ∀ c ∈ env.categories, lowerAscii c.name ≠ lowerAscii categoryName) := by
  intro env categoryName
  refine ⟨fun c hc => ?_, fun hn => ?_, ?_⟩
  · simp only [getRepoInfo, hc]
  · simp only [getRepoInfo, hn]
  · simp [List.find?_eq_none]

/-- Witness for `getRepoInfo_spec`: the configured name `"blog comments"`
matches the remote category `"Blog Comments"`, and a name with no
case-insensitive match produces the CategoryNotFound message naming it. -/
theorem getRepoInfo_spec_witness :
    getRepoInfo ⟨[], "R_123", [⟨"DC_1", "General"⟩, ⟨"DC_2", "Blog Comments"⟩],
        ⟨"D_new", "https://new"⟩⟩ "blog comments" =
      (.ok ("R_123", "DC_2"), 1) ∧
    getRepoInfo ⟨[], "R_123", [⟨"DC_1", "General"⟩],
        ⟨"D_new", "https://new"⟩⟩ "Nonexistent Category" =
      (.error "Discussion category \"Nonexistent Category\" not found", 1) := by
  refine ⟨(getRepoInfo_spec ⟨[], "R_123",
      [⟨"DC_1", "General"⟩, ⟨"DC_2", "Blog Comments"⟩],
      ⟨"D_new", "https://new"⟩⟩ "blog comments").1 ⟨"DC_2", "Blog Comments"⟩
      (by decide),
    (getRepoInfo_spec ⟨[], "R_123", [⟨"DC_1", "General"⟩],
      ⟨"D_new", "https://new"⟩⟩ "Nonexistent Category").2.1 (by decide)⟩

/-! ## Claim C1 — findOrCreateDiscussion call counts -/

/-- Claim C1: a search result whose title matches the requested title
exactly (case-sensitively) makes `findOrCreateDiscussion` return the
existing discussion's id and url after exactly one remote call; with no
exact match among the results (near-matches never count:
`findDiscussion` returns null precisely when no result title equals the
requested title), it issues exactly three remote calls — search,
repo-info, create — and returns the created discussion. -/
theorem findOrCreateDiscussion_spec :
    ∀ (env : RemoteEnv) (owner repo categoryName title body : String),
      ((findDiscussion env title).1 = none ↔
        ∀ n ∈ env.searchNodes, n.title ≠ title) ∧
      (∀ n, env.searchNodes.find? (fun m => m.title == title) = some n →
        findOrCreateDiscussion env owner repo categoryName title body =
          (.ok ⟨n.id, n.url⟩, 1)) ∧
      (env.searchNodes.find? (fun m => m.title == title) = none →
        ∀ c, env.categories.find?
            (fun c2 => lowerAscii c2.name == lowerAscii categoryName) =
              some c →
          findOrCreateDiscussion env owner repo categoryName title body =
            (.ok env.created, 3)) := by
  intro env owner repo categoryName title body
  refine ⟨?_, fun n hn => ?_, fun hn c hc => ?_⟩
  · simp [findDiscussion, List.find?_eq_none]
  · simp only [findOrCreateDiscussion, findDiscussion, hn, Option.map_some']
  · simp only [findOrCreateDiscussion, findDiscussion, hn, Option.map_none',
      getRepoInfo, hc, createDiscussion]

/-- Witness for `findOrCreateDiscussion_spec`: an exact-title hit returns
the existing discussion after one call; a novel title costs three calls
and returns the created discussion. -/
theorem findOrCreateDiscussion_spec_witness :
    findOrCreateDiscussion ⟨[⟨"D_existing", "My Post", "https://existing"⟩],
        "R_123", [⟨"DC_1", "Blog Comments"⟩], ⟨"D_new", "https://new"⟩⟩
        "user" "blog" "Blog Comments" "My Post" "Body" =
      (.ok ⟨"D_existing", "https://existing"⟩, 1) ∧
    findOrCreateDiscussion ⟨[⟨"D_1", "My Other Blog Post", "https://other"⟩],
        "R_123", [⟨"DC_1", "Blog Comments"⟩], ⟨"D_new", "https://new"⟩⟩
        "user" "blog" "Blog Comments" "New Post" "Body" =
      (.ok ⟨"D_new", "https://new"⟩, 3) := by
  refine ⟨(findOrCreateDiscussion_spec ⟨[⟨"D_existing", "My Post",
      "https://existing"⟩], "R_123", [⟨"DC_1", "Blog Comments"⟩],
      ⟨"D_new", "https://new"⟩⟩ "user" "blog" "Blog Comments" "My Post"
      "Body").2.1 ⟨"D_existing", "My Post", "https://existing"⟩ (by decide),
    (findOrCreateDiscussion_spec ⟨[⟨"D_1", "My Other Blog Post",
      "https://other"⟩], "R_123", [⟨"DC_1", "Blog Comments"⟩],
      ⟨"D_new", "https://new"⟩⟩ "user" "blog" "Blog Comments" "New Post"
      "Body").2.2 (by decide) ⟨"DC_1", "Blog Comments"⟩ (by decide)⟩

/-! ## Lemmas about the pipeline loops -/

/-- A successful generation pass yields one comment per selected persona,
in order: comment i carries persona i's name, i's generated text, and its
formatted text. -/
theorem generateAll_ok_spec (env : GenEnv) (cfg : GiscusBotConfig) :
    ∀ (ps : List Persona) (cs : List CommentResult),
      generateAll env cfg ps = .ok cs →
      cs.length = ps.length ∧
      ∀ i (hi : i < cs.length) (hp : i < ps.length),
        (cs.get ⟨i, hi⟩).personaName = (ps.get ⟨i, hp⟩).name ∧
        env.generateComment (ps.get ⟨i, hp⟩) =
          .ok (cs.get ⟨i, hi⟩).comment ∧
        (cs.get ⟨i, hi⟩).formattedComment =
          formatComment (cs.get ⟨i, hi⟩).comment (ps.get ⟨i, hp⟩).name
            cfg.label := by
  intro ps
  induction ps with
  | nil =>
    intro cs h
    simp only [generateAll] at h
    injection h with h
    subst h
    exact ⟨rfl, fun i hi _ => absurd hi (by simp)⟩
  | cons p ps ih =>
    intro cs h
    simp only [generateAll] at h
    rcases hgc : env.generateComment p with e | c <;> rw [hgc] at h
    · cases h
    · rcases hrest : generateAll env cfg ps with e | rest <;> rw [hrest] at h
      · cases h
      · injection h with h
        subst h
        obtain ⟨hlen, hpt⟩ := ih rest hrest
        refine ⟨by simp [hlen], ?_⟩
        intro i hi hp
        cases i with
        | zero => exact ⟨rfl, hgc, rfl⟩
        | succ i =>
          simpa using hpt i (by simpa using hi) (by simpa using hp)

/-- A comment loop in which every call succeeds issues one `addComment`
call per comment, in order, and posts exactly the formatted comments in
order. -/
theorem postAll_ok_spec (env : GenEnv) (d : String) :
    ∀ (cs : List CommentResult) (k : Nat) (calls : List PubCall)
      (posted : List String),
      postAll env d k cs = (.ok (), calls, posted) →
      calls = cs.map (fun c => PubCall.addComment d c.formattedComment) ∧
      posted = cs.map (fun c => c.formattedComment) := by
  intro cs
  induction cs with
  | nil =>
    intro k calls posted h
    simp only [postAll, Prod.mk.injEq] at h
    exact ⟨h.2.1.symm, h.2.2.symm⟩
  | cons c cs ih =>
    intro k calls posted h
    simp only [postAll] at h
    rcases ho : env.addCommentOutcome k with e | u <;> rw [ho] at h
    · simp only [Prod.mk.injEq] at h
      cases h.1
    · rcases hr : postAll env d (k + 1) cs with ⟨r1, r2, r3⟩
      rw [hr] at h
      simp only [Prod.mk.injEq] at h
      obtain ⟨h1, h2, h3⟩ := h
      obtain ⟨hc, hp⟩ := ih (k + 1) r2 r3 (by rw [hr, ← h1])
      subst hc hp
      exact ⟨h2.symm, h3.symm⟩

/-- A comment loop whose calls `k .. k+n-1` succeed and whose call `k+n`
fails stops right after the failing call: it issues the first `n+1` calls,
posts the first `n` comments, and returns the failing call's error
unmodified. -/
theorem postAll_fail_spec (env : GenEnv) (d : String) :
    ∀ (cs : List CommentResult) (k n : Nat) (e : String),
      (∀ j, j < n → env.addCommentOutcome (k + j) = .ok ()) →
      env.addCommentOutcome (k + n) = .error e →
      n < cs.length →
      postAll env d k cs =
        (.error e,
         (cs.take (n + 1)).map
           (fun c => PubCall.addComment d c.formattedComment),
         (cs.take n).map (fun c => c.formattedComment)) := by
  intro cs
  induction cs with
  | nil =>
    intro k n e _ _ hn
    exact absurd hn (by simp)
  | cons c cs ih =>
    intro k n e hok herr hn
    cases n with
    | zero =>
      have h0 : env.addCommentOutcome k = .error e := by simpa using herr
      simp [postAll, h0]
    | succ n =>
      have h0 : env.addCommentOutcome k = .ok () := by
        simpa using hok 0 (Nat.succ_pos n)
      have hr := ih (k + 1) n e
        (fun j hj => by
          have := hok (j + 1) (by omega)
          rwa [show k + (j + 1) = k + 1 + j by omega] at this)
        (by rwa [show k + (n + 1) = k + 1 + n by omega] at herr)
        (by simpa using hn)
      simp only [postAll, h0, hr]
      simp

/-! ## Claim C2 — dry-run isolation -/

/-- Claim C2: a dry run issues no publish call and posts nothing,
regardless of configuration, provider behaviour and persona count, and a
successful dry run reports a null discussionUrl; conversely a successful
non-dry run reports a non-null discussionUrl, so the discussionUrl is
null exactly in preview mode. -/
theorem generate_dryRun_spec :
    ∀ (ctx : PostContext) (cfg : GiscusBotConfig) (env : GenEnv),
      (generate ctx cfg env true).calls = [] ∧
      (generate ctx cfg env true).posted = [] ∧
      (∀ r, (generate ctx cfg env true).result = .ok r →
        r.discussionUrl = none) ∧
      (∀ r, (generate ctx cfg env false).result = .ok r →
        r.discussionUrl.isSome = true) := by
  intro ctx cfg env
  rcases hg : generateAll env cfg (selectPersonas cfg.personas cfg.maxPersonas)
    with e | comments
  · refine ⟨by simp only [generate, hg], by simp only [generate, hg],
      fun r hr => ?_, fun r hr => ?_⟩ <;>
      simp only [generate, hg] at hr <;> cases hr
  · refine ⟨by simp [generate, hg], by simp [generate, hg],
      fun r hr => ?_, fun r hr => ?_⟩
    · simp only [generate, hg, if_pos] at hr
      injection hr with hr
      subst hr
      rfl
    · simp only [generate, hg, Bool.false_eq_true, if_false] at hr
      rcases hp : parseRepo cfg.repo with e | ⟨owner, repo⟩ <;>
        simp only [hp] at hr
      · cases hr
      · rcases hf : env.findOrCreate with e | disc <;> simp only [hf] at hr
        · cases hr
        · rcases hl : postAll env disc.id 0 comments with ⟨l1, l2, l3⟩
          simp only [hl] at hr
          rcases l1 with e | u <;> simp only [] at hr
          · cases hr
          · injection hr with hr
            subst hr
            rfl

/-- Witness for `generate_dryRun_spec` at a concrete run. -/
def cms0 : List CommentResult :=
  [⟨"Curious Reader", "Comment from Curious Reader",
    "🤖 **AI Comment** · Persona: Curious Reader\n\nComment from Curious Reader"⟩,
   ⟨"Devil's Advocate", "Comment from Devil's Advocate",
    "🤖 **AI Comment** · Persona: Devil's Advocate\n\nComment from Devil's Advocate"⟩]

def rDry0 : GenerateResult :=
  ⟨"Test Post Title", "https://blog.example.com/post", none, cms0⟩

def rPub0 : GenerateResult :=
  ⟨"Test Post Title", "https://blog.example.com/post",
   some "https://github.com/user/blog/discussions/1", cms0⟩

theorem generate_dryRun_spec_witness :
    (generate ctx0 cfg0 env0 true).calls = [] ∧
    rDry0.discussionUrl = none ∧
    rPub0.discussionUrl.isSome = true :=
  ⟨(generate_dryRun_spec ctx0 cfg0 env0).1,
   (generate_dryRun_spec ctx0 cfg0 env0).2.2.1 rDry0 (by decide),
   (generate_dryRun_spec ctx0 cfg0 env0).2.2.2 rPub0 (by decide)⟩

/-! ## Claim C3 — comment/persona correspondence and publish ordering -/

/-- Claim C3: in any successful run, comment i of the result corresponds
to persona i of the capped persona list (same name, that persona's
generated text); and in non-dry-run mode the publish calls are exactly
one `findOrCreateDiscussion` followed by one `addComment` per generated
comment, sequentially, in generation order — never reordered or
interleaved. -/
theorem generate_ordering_spec :
    ∀ (ctx : PostContext) (cfg : GiscusBotConfig) (env : GenEnv)
      (dryRun : Bool) (r : GenerateResult),
      (generate ctx cfg env dryRun).result = .ok r →
      (r.comments.length =
          (selectPersonas cfg.personas cfg.maxPersonas).length ∧
        ∀ i (hi : i < r.comments.length)
          (hp : i < (selectPersonas cfg.personas cfg.maxPersonas).length),
          (r.comments.get ⟨i, hi⟩).personaName =
            ((selectPersonas cfg.personas cfg.maxPersonas).get ⟨i, hp⟩).name ∧
          env.generateComment
              ((selectPersonas cfg.personas cfg.maxPersonas).get ⟨i, hp⟩) =
            .ok (r.comments.get ⟨i, hi⟩).comment) ∧
      (dryRun = false →
        ∃ owner repo disc,
          parseRepo cfg.repo = .ok (owner, repo) ∧
          env.findOrCreate = .ok disc ∧
          (generate ctx cfg env dryRun).calls =
            PubCall.findOrCreate owner repo cfg.discussionCategory ctx.title
                ("Discussion for: " ++ ctx.title) ::
              r.comments.map
                (fun c => PubCall.addComment disc.id c.formattedComment)) := by
  intro ctx cfg env dryRun r hr
  rcases hg : generateAll env cfg (selectPersonas cfg.personas cfg.maxPersonas)
    with e | comments <;> simp only [generate, hg] at hr
  · cases hr
  · obtain ⟨hlen, hpt⟩ := generateAll_ok_spec env cfg
      (selectPersonas cfg.personas cfg.maxPersonas) comments hg
    cases dryRun with
    | true =>
      simp only [if_pos] at hr
      injection hr with hr
      subst hr
      exact ⟨⟨hlen, fun i hi hp => ⟨(hpt i hi hp).1, (hpt i hi hp).2.1⟩⟩,
        fun h => Bool.noConfusion h⟩
    | false =>
      simp only [Bool.false_eq_true, if_false] at hr
      rcases hp : parseRepo cfg.repo with e | ⟨owner, repo⟩ <;>
        simp only [hp] at hr
      · cases hr
      · rcases hf : env.findOrCreate with e | disc <;> simp only [hf] at hr
        · cases hr
        · rcases hl : postAll env disc.id 0 comments with ⟨l1, l2, l3⟩
          simp only [hl] at hr
          rcases l1 with e | u <;> simp only [] at hr
          · cases hr
          · injection hr with hr
            subst hr
            obtain ⟨hcalls, -⟩ :=
              postAll_ok_spec env disc.id comments 0 l2 l3 (by rw [hl])
            refine ⟨⟨hlen, fun i hi hp => ⟨(hpt i hi hp).1,
              (hpt i hi hp).2.1⟩⟩, fun _ => ⟨owner, repo, disc, rfl, rfl, ?_⟩⟩
            simp only [generate, hg, Bool.false_eq_true, if_false, hp, hf, hl]
            rw [hcalls]

/-- Witness for `generate_ordering_spec` at a concrete two-persona run:
the search/create call comes first and the two comments are posted in
persona order. -/
theorem generate_ordering_spec_witness :
    rPub0.comments.length =
      (selectPersonas cfg0.personas cfg0.maxPersonas).length ∧
    (generate ctx0 cfg0 env0 false).calls =
      [PubCall.findOrCreate "user" "blog" "Blog Comments" "Test Post Title"
        "Discussion for: Test Post Title",
       PubCall.addComment "D_1"
        "🤖 **AI Comment** · Persona: Curious Reader\n\nComment from Curious Reader",
       PubCall.addComment "D_1"
        "🤖 **AI Comment** · Persona: Devil's Advocate\n\nComment from Devil's Advocate"] := by
  have T := generate_ordering_spec ctx0 cfg0 env0 false rPub0 (by decide)
  refine ⟨T.1.1, ?_⟩
  obtain ⟨ow, rp, dc, h1, h2, h3⟩ := T.2 rfl
  have h1' : Except.ok (ow, rp) = Except.ok ("user", "blog") :=
    h1.symm.trans (by decide)
  injection h1' with h1'
  obtain ⟨rfl, rfl⟩ := Prod.mk.injEq _ _ _ _ |>.mp h1'
  have h2' : Except.ok dc =
      Except.ok (Discussion.mk "D_1" "https://github.com/user/blog/discussions/1") :=
    h2.symm.trans (by decide)
  injection h2' with h2'
  subst h2'
  rw [h3]
  decide

/-! ## Claim C8 — non-atomic comment posting, no compensation -/

/-- Claim C8: when the k-th `addComment` call of a non-dry run fails
(0-based: calls 0..k-1 succeeded), the run stops — exactly the
find-or-create call and the first k+1 `addComment` calls were issued, so
the remaining comments are never attempted — the comments posted by the k
preceding calls remain posted (nothing is rolled back: the outcome's
posted list is exactly those k formatted comments), and the run reports
failure with the failing call's error unmodified. -/
theorem generate_partial_failure_spec :
    ∀ (ctx : PostContext) (cfg : GiscusBotConfig) (env : GenEnv)
      (comments : List CommentResult) (owner repo : String)
      (disc : Discussion) (k : Nat) (e : String),
      generateAll env cfg (selectPersonas cfg.personas cfg.maxPersonas) =
        .ok comments →
      parseRepo cfg.repo = .ok (owner, repo) →
      env.findOrCreate = .ok disc →
      (∀ j, j < k → env.addCommentOutcome j = .ok ()) →
      env.addCommentOutcome k = .error e →
      k < comments.length →
      generate ctx cfg env false =
        ⟨.error e,
         PubCall.findOrCreate owner repo cfg.discussionCategory ctx.title
             ("Discussion for: " ++ ctx.title) ::
           (comments.take (k + 1)).map
             (fun c => PubCall.addComment disc.id c.formattedComment),
         (comments.take k).map (fun c => c.formattedComment)⟩ := by
  intro ctx cfg env comments owner repo disc k e hg hp hf hok herr hk
  have hpost := postAll_fail_spec env disc.id comments 0 k e
    (fun j hj => by simpa using hok j hj) (by simpa using herr) hk
  simp only [generate, hg, Bool.false_eq_true, if_false, hp, hf, hpost]

/-- Witness for `generate_partial_failure_spec`: with two generated
comments and the second `addComment` call failing, the first comment
remains posted, the error surfaces unmodified, and no further call is
attempted. -/
def env8 : GenEnv :=
  ⟨fun p => .ok ("Comment from " ++ p.name),
   .ok ⟨"D_1", "https://github.com/user/blog/discussions/1"⟩,
   fun j => if j = 1 then .error "boom" else .ok ()⟩

theorem generate_partial_failure_spec_witness :
    generate ctx0 cfg0 env8 false =
      ⟨.error "boom",
       [PubCall.findOrCreate "user" "blog" "Blog Comments" "Test Post Title"
         "Discussion for: Test Post Title",
        PubCall.addComment "D_1"
         "🤖 **AI Comment** · Persona: Curious Reader\n\nComment from Curious Reader",
        PubCall.addComment "D_1"
         "🤖 **AI Comment** · Persona: Devil's Advocate\n\nComment from Devil's Advocate"],
       ["🤖 **AI Comment** · Persona: Curious Reader\n\nComment from Curious Reader"]⟩ := by
  have T := generate_partial_failure_spec ctx0 cfg0 env8 cms0 "user" "blog"
    ⟨"D_1", "https://github.com/user/blog/discussions/1"⟩ 1 "boom"
    (by decide) (by decide) (by decide)
    (by intro j hj
        have hj0 : j = 0 := by omega
        subst hj0
        decide)
    (by decide) (by decide)
  exact T.trans (by decide)

/-! ## Claim C10 — first-occurrence placeholder substitution

The placeholders all have the shape `'{' :: c :: cs` with pairwise
distinct second characters and no further left brace.  On a pattern made
of brace-free text around placeholder occurrences, a replacement with a
brace-free value can neither create nor destroy occurrences of the other
placeholders, and only the first occurrence of its own placeholder is
touched. -/

def lBraceFree (l : List Char) : Prop := ∀ c ∈ l, c ≠ '{'

instance (l : List Char) : Decidable (lBraceFree l) :=
  List.decidableBAll _ l

/-- Strings built from brace-free characters and whole occurrences of the
placeholder `ph`. -/
inductive PhSeq (ph : List Char) : List Char → Prop where
  | nil : PhSeq ph []
  | chr : ∀ {c : Char} {s : List Char}, c ≠ '{' → PhSeq ph s →
      PhSeq ph (c :: s)
  | blk : ∀ {s : List Char}, PhSeq ph s → PhSeq ph (ph ++ s)

theorem phseq_append {ph a s : List Char} (ha : lBraceFree a)
    (hs : PhSeq ph s) : PhSeq ph (a ++ s) := by
  induction a with
  | nil => simpa using hs
  | cons c a ih =>
    exact PhSeq.chr (ha c (List.mem_cons_self c a))
      (ih (fun x hx => ha x (List.mem_cons_of_mem c hx)))

theorem phseq_of_chars {ph a : List Char} (ha : lBraceFree a) :
    PhSeq ph a := by
  simpa using phseq_append ha (@PhSeq.nil ph)

/-- One step of the first-occurrence search, when the token does not
start here. -/
theorem splitFirstL_cons_skip {t : List Char} {c : Char} {s : List Char}
    (h : t.isPrefixOf (c :: s) = false) :
    splitFirstL t (c :: s) =
      (splitFirstL t s).map (fun ab => (c :: ab.1, ab.2)) := by
  simp only [splitFirstL]
  rw [if_neg (by simp [h])]
  cases splitFirstL t s with
  | none => rfl
  | some ab => rfl

/-- Searching for a brace-headed token skips over a brace-free prefix. -/
theorem splitFirstL_append_free {t0 s : List Char} :
    ∀ {d : List Char}, lBraceFree d →
      splitFirstL ('{' :: t0) (d ++ s) =
        (splitFirstL ('{' :: t0) s).map (fun ab => (d ++ ab.1, ab.2)) := by
  intro d
  induction d with
  | nil =>
    intro _
    simp only [List.nil_append]
    cases splitFirstL ('{' :: t0) s with
    | none => rfl
    | some ab => rfl
  | cons c d ih =>
    intro hd
    have hc : c ≠ '{' := hd c (List.mem_cons_self c d)
    have hb : (('{' :: t0).isPrefixOf (c :: (d ++ s))) = false := by
      have h1 : ('{' == c) = false :=
        beq_eq_false_iff_ne.mpr (fun h => hc h.symm)
      simp [List.isPrefixOf, h1]
    rw [List.cons_append, splitFirstL_cons_skip hb,
      ih (fun x hx => hd x (List.mem_cons_of_mem c hx))]
    cases splitFirstL ('{' :: t0) s with
    | none => rfl
    | some ab => rfl

/-- The first occurrence of a token in `t ++ s` that starts the string is
found at the front. -/
theorem splitFirstL_self {t s : List Char} (ht : t ≠ []) :
    splitFirstL t (t ++ s) = some ([], s) := by
  cases t with
  | nil => exact absurd rfl ht
  | cons c t0 =>
    simp only [List.cons_append, splitFirstL]
    rw [if_pos (by
      rw [List.isPrefixOf_iff_prefix]
      exact List.cons_append c t0 s ▸ List.prefix_append (c :: t0) s)]
    simp [List.drop_left]

/-- A token `'{' :: ct :: _` does not occur in a `PhSeq` string for a
placeholder whose second character differs from `ct`. -/
theorem splitFirstL_phseq_none {ct cp : Char} {t' ph' : List Char}
    (hph : lBraceFree (cp :: ph')) (hne : ct ≠ cp) :
    ∀ {s : List Char}, PhSeq ('{' :: cp :: ph') s →
      splitFirstL ('{' :: ct :: t') s = none := by
  intro s hs
  induction hs with
  | nil => rfl
  | @chr c s0 hc _ ih =>
    have hb : (('{' :: ct :: t').isPrefixOf (c :: s0)) = false := by
      have h1 : ('{' == c) = false :=
        beq_eq_false_iff_ne.mpr (fun h => hc h.symm)
      simp [List.isPrefixOf, h1]
    rw [splitFirstL_cons_skip hb, ih]
    rfl
  | @blk s0 _ ih =>
    have hb : (('{' :: ct :: t').isPrefixOf
        ('{' :: cp :: (ph' ++ s0))) = false := by
      have h1 : (ct == cp) = false := beq_eq_false_iff_ne.mpr hne
      simp [List.isPrefixOf, h1]
    simp only [List.cons_append]
    rw [splitFirstL_cons_skip hb,
      show cp :: (ph' ++ s0) = (cp :: ph') ++ s0 from rfl,
      splitFirstL_append_free hph, ih]
    rfl

theorem replaceFirstL_no_occurrence {t r s : List Char}
    (h : splitFirstL t s = none) : replaceFirstL t r s = s := by
  simp [replaceFirstL, h]

/-- Replacing a brace-headed token when the text before its first
occurrence is brace-free rewrites exactly that occurrence. -/
theorem replaceFirstL_at {t0 v p1 rest : List Char} (hp1 : lBraceFree p1) :
    replaceFirstL ('{' :: t0) v (p1 ++ ('{' :: t0) ++ rest) =
      p1 ++ v ++ rest := by
  rw [replaceFirstL, List.append_assoc, splitFirstL_append_free hp1,
    splitFirstL_self (by simp)]
  simp

/-- The second character of a placeholder key. -/
def keyChar (k : List Char) : Char := (k.drop 1).headD ' '

/-- One step of `applySubsts`. -/
theorem applySubsts_cons (tv : List Char × List Char)
    (subs : List (List Char × List Char)) (s : List Char) :
    applySubsts (tv :: subs) s =
      applySubsts subs (replaceFirstL tv.1 tv.2 s) := rfl

/-- Substitutions whose keys are placeholders with a second character
different from `cp` leave a `PhSeq` string for the `cp`-placeholder
unchanged. -/
theorem applySubsts_skip {cp : Char} {ph' s : List Char}
    (hph : lBraceFree (cp :: ph')) :
    ∀ (subs : List (List Char × List Char)),
      (∀ tv ∈ subs, ∃ c2 t2, tv.1 = '{' :: c2 :: t2 ∧ c2 ≠ cp) →
      PhSeq ('{' :: cp :: ph') s → applySubsts subs s = s := by
  intro subs
  induction subs with
  | nil => intro _ _; rfl
  | cons tv subs ih =>
    intro hsh hs
    obtain ⟨c2, t2, hkey, hne⟩ := hsh tv (List.mem_cons_self tv subs)
    rw [applySubsts_cons, hkey,
      replaceFirstL_no_occurrence (splitFirstL_phseq_none hph hne hs)]
    exact ih (fun x hx => hsh x (List.mem_cons_of_mem tv hx)) hs

/-- Core of claim C10: a substitution list containing the placeholder
`'{' :: cp :: ph'` with value `v`, whose keys are placeholders with
pairwise distinct second characters, rewrites a pattern with two
occurrences of that placeholder (amid brace-free text) by replacing only
the first occurrence; the second occurrence survives verbatim. -/
theorem applySubsts_mem {cp : Char} {ph' v p1 p2 p3 : List Char}
    (hph : lBraceFree (cp :: ph')) (hv : lBraceFree v)
    (hp1 : lBraceFree p1) (hp2 : lBraceFree p2) (hp3 : lBraceFree p3) :
    ∀ (subs : List (List Char × List Char)),
      ('{' :: cp :: ph', v) ∈ subs →
      (∀ tv ∈ subs, ∃ c2 t2, tv.1 = '{' :: c2 :: t2 ∧ lBraceFree (c2 :: t2)) →
      List.Pairwise (fun a b => keyChar a.1 ≠ keyChar b.1) subs →
      applySubsts subs
          (p1 ++ ('{' :: cp :: ph') ++ p2 ++ ('{' :: cp :: ph') ++ p3) =
        p1 ++ v ++ p2 ++ ('{' :: cp :: ph') ++ p3 := by
  intro subs
  induction subs with
  | nil => intro h; cases h
  | cons tv subs ih =>
    intro hmem hsh hpw
    rcases List.mem_cons.mp hmem with heq | hmem'
    · -- the head entry is the placeholder itself: replace, then skip
      rw [← heq]
      have hrepl : replaceFirstL ('{' :: cp :: ph') v
          (p1 ++ ('{' :: cp :: ph') ++ p2 ++ ('{' :: cp :: ph') ++ p3) =
            p1 ++ v ++ (p2 ++ ('{' :: cp :: ph') ++ p3) := by
        rw [show p1 ++ ('{' :: cp :: ph') ++ p2 ++ ('{' :: cp :: ph') ++ p3 =
          p1 ++ ('{' :: cp :: ph') ++ (p2 ++ ('{' :: cp :: ph') ++ p3) by
            simp [List.append_assoc]]
        exact replaceFirstL_at hp1
      have h0 : PhSeq ('{' :: cp :: ph')
          (p1 ++ (v ++ (p2 ++ (('{' :: cp :: ph') ++ p3)))) :=
        phseq_append hp1 (phseq_append hv (phseq_append hp2
          (PhSeq.blk (phseq_of_chars hp3))))
      have hseq : PhSeq ('{' :: cp :: ph')
          (p1 ++ v ++ (p2 ++ ('{' :: cp :: ph') ++ p3)) := by
        simp only [List.append_assoc]
        exact h0
      have hshape2 : ∀ x ∈ subs, ∃ c2 t2, x.1 = '{' :: c2 :: t2 ∧ c2 ≠ cp := by
        intro x hx
        obtain ⟨c2, t2, hkey, -⟩ := hsh x (List.mem_cons_of_mem tv hx)
        refine ⟨c2, t2, hkey, fun hcc => ?_⟩
        have hr := (List.pairwise_cons.mp hpw).1 x hx
        rw [← heq] at hr
        apply hr
        rw [hkey]
        simp [keyChar, hcc]
      have hskip := applySubsts_skip hph subs hshape2 hseq
      rw [applySubsts_cons, hrepl, hskip]
      simp [List.append_assoc]
    · -- the head entry is a different placeholder: it does not occur
      obtain ⟨c2, t2, hkey, -⟩ := hsh tv (List.mem_cons_self tv subs)
      have hne : c2 ≠ cp := by
        intro hcc
        have hr := (List.pairwise_cons.mp hpw).1 _ hmem'
        apply hr
        rw [hkey]
        simp [keyChar, hcc]
      have hseq : PhSeq ('{' :: cp :: ph')
          (p1 ++ ('{' :: cp :: ph') ++ p2 ++ ('{' :: cp :: ph') ++ p3) := by
        have h0 : PhSeq ('{' :: cp :: ph')
            (p1 ++ (('{' :: cp :: ph') ++ (p2 ++ (('{' :: cp :: ph') ++ p3)))) :=
          phseq_append hp1 (PhSeq.blk (phseq_append hp2
            (PhSeq.blk (phseq_of_chars hp3))))
        simp only [List.append_assoc]
        exact h0
      rw [applySubsts_cons, hkey,
        replaceFirstL_no_occurrence (splitFirstL_phseq_none hph hne hseq)]
      exact ih hmem' (fun x hx => hsh x (List.mem_cons_of_mem tv hx))
        (List.pairwise_cons.mp hpw).2

/-- The groups captured by the date-prefix regex are the corresponding
slices of the filename. -/
theorem jekyllMatchL_parts {l y m d s : List Char}
    (h : jekyllMatchL l = some (y, m, d, s)) :
    y = l.take 4 ∧ m = (l.drop 5).take 2 ∧ d = (l.drop 8).take 2 ∧
      s = l.drop 11 := by
  simp only [jekyllMatchL] at h
  split at h
  · simp only [Option.some.injEq, Prod.mk.injEq] at h
    exact ⟨h.1.symm, h.2.1.symm, h.2.2.1.symm, h.2.2.2.symm⟩
  · cases h

/-- The substitution keys are the five placeholders, in source order,
whatever the file path. -/
theorem customSubsts_keys (fp : List Char) :
    (customSubstsL fp).map Prod.fst =
      ["{slug}".data, "{filename}".data, "{year}".data, "{month}".data,
       "{day}".data] := by
  simp only [customSubstsL]
  cases jekyllMatchL (stripExtJekyllL (basenameL fp)) with
  | none => rfl
  | some t => rfl

/-- Every substitution value is brace-free when the stripped basename is:
each value is the stripped basename itself, one of its slices, or empty. -/
theorem customSubsts_values {fp : List Char}
    (hf : lBraceFree (stripExtJekyllL (basenameL fp))) :
    ∀ tv ∈ customSubstsL fp, lBraceFree tv.2 := by
  intro tv htv
  simp only [customSubstsL] at htv
  rcases hm : jekyllMatchL (stripExtJekyllL (basenameL fp)) with
    _ | ⟨y, m, d, slug⟩ <;> rw [hm] at htv
  · simp only [List.mem_cons, List.not_mem_nil, or_false] at htv
    have hnil : lBraceFree [] := fun c hc => absurd hc (List.not_mem_nil c)
    rcases htv with rfl | rfl | rfl | rfl | rfl
    · exact hf
    · exact hf
    · exact hnil
    · exact hnil
    · exact hnil
  · obtain ⟨hy, hm2, hd, hs⟩ := jekyllMatchL_parts hm
    subst hy hm2 hd hs
    simp only [List.mem_cons, List.not_mem_nil, or_false] at htv
    rcases htv with rfl | rfl | rfl | rfl | rfl
    · exact fun c hc => hf c ((List.drop_sublist _ _).subset hc)
    · exact hf
    · exact fun c hc => hf c ((List.take_sublist _ _).subset hc)
    · exact fun c hc =>
        hf c ((List.drop_sublist _ _).subset ((List.take_sublist _ _).subset hc))
    · exact fun c hc =>
        hf c ((List.drop_sublist _ _).subset ((List.take_sublist _ _).subset hc))

/-- Claim C10: each placeholder is substituted only at its first
occurrence — for a pattern containing a placeholder twice (amid text and
a file basename without braces), the produced path replaces the first
occurrence with that placeholder's value and keeps the second occurrence
verbatim — and the substitutions are applied in the fixed source order
`{slug}`, `{filename}`, `{year}`, `{month}`, `{day}`, observable on the
concrete pattern `{filename}{slug}` for the file `{slug}x.md`: the
`{slug}` replacement runs first, so the `{slug}` text introduced by the
later `{filename}` replacement survives. -/
theorem customFileToPath_first_occurrence :
    (∀ (fp : String) (p1 p2 p3 ph v : List Char),
      (ph, v) ∈ customSubstsL fp.data →
      lBraceFree p1 → lBraceFree p2 → lBraceFree p3 →
      lBraceFree (stripExtJekyllL (basenameL fp.data)) →
      (customFileToPath fp ⟨p1 ++ ph ++ p2 ++ ph ++ p3⟩).data =
        p1 ++ v ++ p2 ++ ph ++ p3) ∧
    customFileToPath "{slug}x.md" "{filename}{slug}" = "{slug}x{slug}x" := by
  refine ⟨fun fp p1 p2 p3 ph v hmem hp1 hp2 hp3 hf => ?_, by decide⟩
  have hv : lBraceFree v := customSubsts_values hf (ph, v) hmem
  have hsh : ∀ tv ∈ customSubstsL fp.data,
      ∃ c2 t2, tv.1 = '{' :: c2 :: t2 ∧ lBraceFree (c2 :: t2) := by
    intro tv htv
    have hk : tv.1 ∈ (customSubstsL fp.data).map Prod.fst :=
      List.mem_map_of_mem Prod.fst htv
    rw [customSubsts_keys] at hk
    simp only [List.mem_cons, List.not_mem_nil, or_false] at hk
    rcases hk with h | h | h | h | h <;> rw [h]
    · exact ⟨'s', ['l', 'u', 'g', '}'], rfl, by decide⟩
    · exact ⟨'f', ['i', 'l', 'e', 'n', 'a', 'm', 'e', '}'], rfl, by decide⟩
    · exact ⟨'y', ['e', 'a', 'r', '}'], rfl, by decide⟩
    · exact ⟨'m', ['o', 'n', 't', 'h', '}'], rfl, by decide⟩
    · exact ⟨'d', ['a', 'y', '}'], rfl, by decide⟩
  have hpw : List.Pairwise (fun a b => keyChar a.1 ≠ keyChar b.1)
      (customSubstsL fp.data) := by
    have h1 : ((customSubstsL fp.data).map Prod.fst).Pairwise
        (fun a b => keyChar a ≠ keyChar b) := by
      rw [customSubsts_keys]
      decide
    exact List.Pairwise.of_map Prod.fst (fun a b h => h) h1
  obtain ⟨c2, t2, hksh, hbf⟩ := hsh (ph, v) hmem
  have hgoal : (customFileToPath fp ⟨p1 ++ ph ++ p2 ++ ph ++ p3⟩).data =
      applySubsts (customSubstsL fp.data) (p1 ++ ph ++ p2 ++ ph ++ p3) := rfl
  rw [hgoal]
  have hksh' : ph = '{' :: c2 :: t2 := hksh
  subst hksh'
  exact applySubsts_mem hbf hv hp1 hp2 hp3 (customSubstsL fp.data) hmem hsh hpw

/-- Witness for `customFileToPath_first_occurrence` at a concrete file and
pattern: in `/x/{slug}/{slug}/` only the first `{slug}` is replaced. -/
theorem customFileToPath_first_occurrence_witness :
    (customFileToPath "about.md"
        ⟨"/x/".data ++ "{slug}".data ++ "/".data ++ "{slug}".data ++
          "/".data⟩).data =
      "/x/".data ++ "about".data ++ "/".data ++ "{slug}".data ++ "/".data :=
  customFileToPath_first_occurrence.1 "about.md" ("/x/".data) ("/".data)
    ("/".data) ("{slug}".data) ("about".data) (by decide) (by decide)
    (by decide) (by decide) (by decide)

end GiscusBot
